import Mathlib

/-!
Verification of the blog platform backend (models, controllers and auth
logic) as a shallow embedding.  Documents are plain structures, the
persistent store is a pair of lists, controller handlers are functions
from a store and a caller to an `Except` result, and the mongoose
document middleware (pre-save hooks) is modelled explicitly: a save of a
document is the hook applied relative to the previously stored version
(`none` for a freshly created document, whose paths all count as
modified).  `findByIdAndUpdate` style updates apply the body directly
and do NOT run the pre-save hook, matching mongoose semantics; with
schema timestamps enabled they still refresh `updatedAt`.
-/

namespace BlogApp

abbrev UserId := Nat
abbrev BlogId := Nat
abbrev CommentId := Nat

/-- Roles from the user schema enum (member and admin). -/
inductive Role
  | user
  | admin
deriving DecidableEq, Repr

/-- The authenticated caller attached to a request by the auth middleware. -/
structure AuthUser where
  id : UserId
  role : Role
deriving DecidableEq, Repr

/-- An optional caller: `none` is an anonymous request. -/
abbrev Caller := Option AuthUser

/-- Blog lifecycle states from the blog schema enum. -/
inductive BlogStatus
  | draft
  | published
  | archived
deriving DecidableEq, Repr

/-- One entry of an embedded likes array: a user reference plus the
default likedAt timestamp recorded when the entry was pushed. -/
structure LikeEntry where
  user : UserId
  likedAt : Nat
deriving DecidableEq, Repr

/-- A blog document (fields relevant to the verified behaviour). -/
structure Blog where
  id : BlogId
  title : String
  content : String
  author : UserId
  status : BlogStatus
  isPublic : Bool
  views : Nat
  likes : List LikeEntry
  publishedAt : Option Nat
  updatedAt : Nat
deriving DecidableEq, Repr

/-- A comment document. -/
structure Comment where
  id : CommentId
  content : String
  author : UserId
  blog : BlogId
  parentComment : Option CommentId
  likes : List LikeEntry
  isEdited : Bool
  editedAt : Option Nat
  isDeleted : Bool
  deletedAt : Option Nat
  createdAt : Nat
  updatedAt : Nat
deriving DecidableEq, Repr

/-- The document store: the blogs and comments collections. -/
structure Store where
  blogs : List Blog
  comments : List Comment
deriving DecidableEq, Repr

/-- The error shape produced by the ErrorResponse class: a message and a
HTTP status code. -/
structure ErrorResponse where
  message : String
  statusCode : Nat
deriving DecidableEq, Repr

abbrev Result (α : Type) := Except ErrorResponse α

/-! ## Schema methods and hooks -/

/-- Method isLikedBy shared by both schemas: membership of a user id in
the likes array (a some over entries comparing user ids as strings). -/
def isLikedBy (likes : List LikeEntry) (userId : UserId) : Bool :=
  likes.any (fun l => l.user == userId)

/-- Method toggleLike shared by both schemas: findIndex over the likes
array by user id; when found, splice the entry out and report false
(unliked); otherwise push a fresh entry (with the default likedAt
timestamp `now`) and report true (liked). -/
def toggleLikeList (likes : List LikeEntry) (userId : UserId) (now : Nat) :
    Bool × List LikeEntry :=
  match likes.findIdx? (fun l => l.user == userId) with
  | some i => (false, likes.eraseIdx i)
  | none => (true, likes ++ [⟨userId, now⟩])

/-- blogSchema.methods.toggleLike on a blog document. -/
def Blog.toggleLike (b : Blog) (userId : UserId) (now : Nat) : Bool × Blog :=
  let r := toggleLikeList b.likes userId now
  (r.1, { b with likes := r.2 })

/-- Virtual likeCount: size of the likes array. -/
def Blog.likeCount (b : Blog) : Nat := b.likes.length

/-- blogSchema pre-save hook: when the status path is modified (always
for a new document, otherwise when it differs from the stored version),
the status is published and publishedAt is unset, stamp publishedAt with
the current time; always refresh updatedAt.  This hook only runs on
document save, not on findByIdAndUpdate. -/
def blogPreSave (prev : Option Blog) (b : Blog) (now : Nat) : Blog :=
  let statusModified : Bool :=
    match prev with
    | none => true
    | some p => !(p.status == b.status)
  let b1 :=
    if statusModified && (b.status == BlogStatus.published) && b.publishedAt.isNone then
      { b with publishedAt := some now }
    else b
  { b1 with updatedAt := now }

/-- commentSchema pre-save hook: when the content path is modified
(always for a new document, otherwise when it differs from the stored
version), set the edited flag and timestamp; always refresh updatedAt.
This hook only runs on document save, not on findByIdAndUpdate. -/
def commentPreSave (prev : Option Comment) (c : Comment) (now : Nat) : Comment :=
  let contentModified : Bool :=
    match prev with
    | none => true
    | some p => !(p.content == c.content)
  let c1 :=
    if contentModified then { c with isEdited := true, editedAt := some now }
    else c
  { c1 with updatedAt := now }

/-- commentSchema.methods.softDelete: set the deleted flag and
timestamp, replace the body with the tombstone text, then save the
document (which runs the comment pre-save hook against the stored
version). -/
def Comment.softDelete (stored : Comment) (now : Nat) : Comment :=
  commentPreSave (some stored)
    { stored with
        isDeleted := true
        deletedAt := some now
        content := "[Comment deleted]" }
    now

/-! ## Store primitives -/

/-- findById on the blogs collection. -/
def Store.findBlog (s : Store) (id : BlogId) : Option Blog :=
  s.blogs.find? (fun b => b.id == id)

/-- findOne on the comments collection with filter id and not deleted
(the filter every comment endpoint uses to load a comment). -/
def Store.findLiveComment (s : Store) (id : CommentId) : Option Comment :=
  s.comments.find? (fun c => c.id == id && !c.isDeleted)

/-- findById on the comments collection (no deletion filter). -/
def Store.findComment (s : Store) (id : CommentId) : Option Comment :=
  s.comments.find? (fun c => c.id == id)

/-- Persisting one blog document back by id. -/
def Store.setBlog (s : Store) (id : BlogId) (nb : Blog) : Store :=
  { s with blogs := s.blogs.map (fun b => if b.id == id then nb else b) }

/-- Persisting one comment document back by id. -/
def Store.setComment (s : Store) (id : CommentId) (nc : Comment) : Store :=
  { s with comments := s.comments.map (fun c => if c.id == id then nc else c) }

/-- The deny test the controllers repeat inline: the blog is not
publicly visible and the caller is anonymous or neither the author nor
an admin. -/
def denyView (user : Caller) (b : Blog) : Bool :=
  (!(b.status == BlogStatus.published) || !b.isPublic) &&
    (match user with
     | none => true
     | some u => !(u.id == b.author) && !(u.role == Role.admin))

/-! ## Blog controller (the authorization-aware variant wired to the
routes; the spec designates the simpler duplicate as dead code) -/

/-- Controller getBlog: build the findOne query (anonymous callers get
status published and isPublic added to the filter), 404 when nothing
matches, 403 when the inline visibility test denies, then increment the
view counter via findByIdAndUpdate when the blog is published and the
caller is not the author, and report the blog (with the incremented
count mirrored on the response copy) plus the isLiked flag.  The query
part (the findOne filter) is split out as getBlogQuery. -/
def getBlogQuery (s : Store) (user : Caller) (id : BlogId) : Option Blog :=
  match user with
  | none =>
      s.blogs.find? (fun b =>
        b.id == id && (b.status == BlogStatus.published) && b.isPublic)
  | some _ => s.blogs.find? (fun b => b.id == id)

def getBlog (s : Store) (user : Caller) (id : BlogId) :
    Result (Store × Blog × Bool) :=
  match getBlogQuery s user id with
  | none => Except.error ⟨"Blog not found", 404⟩
  | some blog =>
    if denyView user blog then
      Except.error ⟨"Not authorized to view this blog", 403⟩
    else
      let shouldInc :=
        (blog.status == BlogStatus.published) &&
          (match user with
           | none => true
           | some u => !(u.id == blog.author))
      let s2 := if shouldInc then s.setBlog id { blog with views := blog.views + 1 } else s
      let blogResp := if shouldInc then { blog with views := blog.views + 1 } else blog
      let isLiked :=
        match user with
        | none => false
        | some u => isLikedBy blog.likes u.id
      Except.ok (s2, blogResp, isLiked)

/-- The request body accepted by createBlog (fields relevant here);
status defaults to draft and isPublic to true via the schema. -/
structure BlogCreateBody where
  title : String
  content : String
  status : Option BlogStatus := none
  isPublic : Option Bool := none
deriving Repr

/-- Controller createBlog: the caller becomes the author, the document
is created (a save of a new document, so the blog pre-save hook runs
with every path counting as modified). -/
def createBlog (s : Store) (user : AuthUser) (newId : BlogId)
    (body : BlogCreateBody) (now : Nat) : Store × Blog :=
  let b : Blog :=
    { id := newId
      title := body.title
      content := body.content
      author := user.id
      status := body.status.getD BlogStatus.draft
      isPublic := body.isPublic.getD true
      views := 0
      likes := []
      publishedAt := none
      updatedAt := now }
  let saved := blogPreSave none b now
  ({ s with blogs := s.blogs ++ [saved] }, saved)

/-- The request body accepted by updateBlog: any subset of the schema
fields, applied verbatim by findByIdAndUpdate. -/
structure BlogUpdateBody where
  title : Option String := none
  content : Option String := none
  status : Option BlogStatus := none
  isPublic : Option Bool := none
  author : Option UserId := none
  publishedAt : Option Nat := none
deriving Repr

/-- Apply an update body to a blog document the way findByIdAndUpdate
does: set exactly the provided fields; the pre-save hook does not run,
but schema timestamps still refresh updatedAt. -/
def applyBlogUpdate (b : Blog) (body : BlogUpdateBody) (now : Nat) : Blog :=
  { b with
      title := body.title.getD b.title
      content := body.content.getD b.content
      status := body.status.getD b.status
      isPublic := body.isPublic.getD b.isPublic
      author := body.author.getD b.author
      publishedAt := match body.publishedAt with
        | some t => some t
        | none => b.publishedAt
      updatedAt := now }

/-- Controller updateBlog: 404 when absent, 403 unless the caller is the
author or an admin, silently drop a body author field for non-admins,
then findByIdAndUpdate with the body (no pre-save hook runs). -/
def updateBlog (s : Store) (user : AuthUser) (id : BlogId)
    (body : BlogUpdateBody) (now : Nat) : Result (Store × Blog) :=
  match s.findBlog id with
  | none => Except.error ⟨"Blog not found", 404⟩
  | some blog =>
    if !(blog.author == user.id) && !(user.role == Role.admin) then
      Except.error ⟨"Not authorized to update this blog", 403⟩
    else
      let body1 :=
        if body.author.isSome && !(user.role == Role.admin) then
          { body with author := none }
        else body
      let updated := applyBlogUpdate blog body1 now
      Except.ok (s.setBlog id updated, updated)

/-- Controller deleteBlog: 404 when absent, 403 unless the caller is the
author or an admin, then deleteMany of every comment whose blog field is
this id followed by deleting the blog itself. -/
def deleteBlog (s : Store) (user : AuthUser) (id : BlogId) : Result Store :=
  match s.findBlog id with
  | none => Except.error ⟨"Blog not found", 404⟩
  | some blog =>
    if !(blog.author == user.id) && !(user.role == Role.admin) then
      Except.error ⟨"Not authorized to delete this blog", 403⟩
    else
      Except.ok
        { blogs := s.blogs.filter (fun b => !(b.id == id))
          comments := s.comments.filter (fun c => !(c.blog == id)) }

/-- Controller toggleLikeBlog: 404 when absent, 400 unless the blog is
published and public, then toggle the caller in the likes array and save
(the blog pre-save hook runs against the stored version, with status
unmodified); respond with the isLiked flag and the post-toggle size of
the likes array. -/
def toggleLikeBlog (s : Store) (user : AuthUser) (id : BlogId) (now : Nat) :
    Result (Store × Bool × Nat) :=
  match s.findBlog id with
  | none => Except.error ⟨"Blog not found", 404⟩
  | some blog =>
    if !(blog.status == BlogStatus.published) || !blog.isPublic then
      Except.error ⟨"Cannot like this blog", 400⟩
    else
      let r := blog.toggleLike user.id now
      let saved := blogPreSave (some blog) r.2 now
      Except.ok (s.setBlog id saved, r.1, saved.likes.length)

/-! ## Comment controller -/

/-- The sort primitive of the black-box storage engine (spec section 6):
a stable insertion of one element into a sorted list. -/
def insertSorted {α : Type} (le : α → α → Bool) (x : α) : List α → List α
  | [] => [x]
  | y :: ys => if le x y then x :: y :: ys else y :: insertSorted le x ys

/-- The sort primitive of the black-box storage engine: stable sort by
the given boolean comparison. -/
def sortBy {α : Type} (le : α → α → Bool) : List α → List α
  | [] => []
  | x :: xs => insertSorted le x (sortBy le xs)

/-- Controller getComments (list comments for a blog): 404 when the blog
is absent, 403 when the inline visibility test denies, then find the non
deleted comments of the blog sorted newest first and slice the requested
page (the controller paginates in memory with slice). -/
def getComments (s : Store) (user : Caller) (blogId : BlogId)
    (page limit : Nat) : Result (List Comment) :=
  match s.findBlog blogId with
  | none => Except.error ⟨"Blog not found", 404⟩
  | some blog =>
    if denyView user blog then
      Except.error ⟨"Not authorized to view comments for this blog", 403⟩
    else
      let all :=
        sortBy (fun a b => decide (b.createdAt ≤ a.createdAt))
          (s.comments.filter (fun c => c.blog == blogId && !c.isDeleted))
      Except.ok ((all.drop ((page - 1) * limit)).take limit)

/-- Controller createComment: 404 when the blog is absent, 400 unless
the blog is published and public, 404 when a requested parent comment is
not a live comment on the same blog, then create the comment (a save of
a new document, so the comment pre-save hook runs with every path
counting as modified). -/
def createComment (s : Store) (user : AuthUser) (blogId : BlogId)
    (content : String) (parent : Option CommentId) (newId : CommentId)
    (now : Nat) : Result (Store × Comment) :=
  match s.findBlog blogId with
  | none => Except.error ⟨"Blog not found", 404⟩
  | some blog =>
    if !(blog.status == BlogStatus.published) || !blog.isPublic then
      Except.error ⟨"Cannot comment on this blog", 400⟩
    else
      let parentOk :=
        match parent with
        | none => true
        | some pid =>
            (s.comments.find? (fun c =>
              c.id == pid && c.blog == blogId && !c.isDeleted)).isSome
      if !parentOk then Except.error ⟨"Parent comment not found", 404⟩
      else
        let c : Comment :=
          { id := newId
            content := content
            author := user.id
            blog := blogId
            parentComment := parent
            likes := []
            isEdited := false
            editedAt := none
            isDeleted := false
            deletedAt := none
            createdAt := now
            updatedAt := now }
        let saved := commentPreSave none c now
        Except.ok ({ s with comments := s.comments ++ [saved] }, saved)

/-- Controller updateComment: load the comment with the not-deleted
filter (404 otherwise), 403 unless the caller is the author or an admin,
then findByIdAndUpdate replacing only the content (no pre-save hook
runs; schema timestamps still refresh updatedAt). -/
def updateComment (s : Store) (user : AuthUser) (id : CommentId)
    (newContent : String) (now : Nat) : Result (Store × Comment) :=
  match s.findLiveComment id with
  | none => Except.error ⟨"Comment not found", 404⟩
  | some comment =>
    if !(comment.author == user.id) && !(user.role == Role.admin) then
      Except.error ⟨"Not authorized to update this comment", 403⟩
    else
      let updated := { comment with content := newContent, updatedAt := now }
      Except.ok (s.setComment id updated, updated)

/-- Controller deleteComment: load the comment with the not-deleted
filter (404 otherwise), 403 unless the caller is the author or an admin,
then softDelete (tombstone plus save). -/
def deleteComment (s : Store) (user : AuthUser) (id : CommentId) (now : Nat) :
    Result Store :=
  match s.findLiveComment id with
  | none => Except.error ⟨"Comment not found", 404⟩
  | some comment =>
    if !(comment.author == user.id) && !(user.role == Role.admin) then
      Except.error ⟨"Not authorized to delete this comment", 403⟩
    else
      Except.ok (s.setComment id (Comment.softDelete comment now))

/-- Controller getCommentReplies: load the PARENT comment with the
not-deleted filter (404 when absent or soft-deleted), resolve its blog
(a missing blog makes the populated reference null and the status access
throw, surfacing as a 500), 403 when the inline visibility test denies,
then find the non deleted direct children sorted oldest first and slice
the requested page. -/
def getCommentReplies (s : Store) (user : Caller) (id : CommentId)
    (page limit : Nat) : Result (List Comment) :=
  match s.findLiveComment id with
  | none => Except.error ⟨"Comment not found", 404⟩
  | some parent =>
    match s.findBlog parent.blog with
    | none => Except.error ⟨"Server Error", 500⟩
    | some blog =>
      if denyView user blog then
        Except.error ⟨"Not authorized to view replies", 403⟩
      else
        let all :=
          sortBy (fun a b => decide (a.createdAt ≤ b.createdAt))
            (s.comments.filter (fun c =>
              c.parentComment == some id && !c.isDeleted))
        Except.ok ((all.drop ((page - 1) * limit)).take limit)

/-! ## Identity service -/

/-- A user account document (fields relevant to authentication). -/
structure UserAccount where
  id : UserId
  username : String
  email : String
  password : String
  role : Role
  isActive : Bool
  lastLogin : Nat
deriving DecidableEq, Repr

/-- The claims carried by a signed session token. -/
structure TokenClaims where
  id : UserId
  username : String
  role : Role
deriving DecidableEq, Repr

/-- User.findByCredentials: findOne by email and active flag, then
verify the secret against the stored digest via the black-box bcrypt
compare (passed in as `verify`); both the missing-account case and the
failed-verification case throw the same Invalid credentials error. -/
def findByCredentials (verify : String → String → Bool)
    (users : List UserAccount) (email password : String) :
    Except String UserAccount :=
  match users.find? (fun u => u.email == email && u.isActive) with
  | none => Except.error "Invalid credentials"
  | some user =>
      if verify password user.password then Except.ok user
      else Except.error "Invalid credentials"

/-- Controller login: findByCredentials, converting any failure into the
single generic 401 response; on success refresh lastLogin, save, and
issue a token signing the id, username and role of the account. -/
def login (verify : String → String → Bool) (users : List UserAccount)
    (email password : String) (now : Nat) :
    Result (List UserAccount × UserAccount × TokenClaims) :=
  match findByCredentials verify users email password with
  | Except.error _ => Except.error ⟨"Invalid credentials", 401⟩
  | Except.ok user =>
      let user2 := { user with lastLogin := now }
      Except.ok
        (users.map (fun u => if u.id == user.id then user2 else u),
         user2,
         ⟨user2.id, user2.username, user2.role⟩)

/-- A concrete blog document used by witnesses. -/
def wBlog : Blog :=
  { id := 1, title := "t", content := "c", author := 7,
    status := BlogStatus.published, isPublic := true, views := 0,
    likes := [⟨5, 3⟩], publishedAt := some 1, updatedAt := 0 }

/-- A concrete published private blog used by witnesses. -/
def wPrivBlog : Blog :=
  { id := 3, title := "t", content := "c", author := 7,
    status := BlogStatus.published, isPublic := false, views := 0,
    likes := [], publishedAt := some 1, updatedAt := 0 }

/-- A concrete draft blog owned by account 7, used in the publish
timestamp scenario. -/
def draftBlog : Blog :=
  { id := 1, title := "t", content := "c", author := 7,
    status := BlogStatus.draft, isPublic := true, views := 0, likes := [],
    publishedAt := none, updatedAt := 0 }

/-- The soft-delete scenario of the spec: create top-level comment 1 on
the published post, create reply 2 with parentComment 1, then soft
delete comment 1. -/
def softDeleteScenario : Result Store :=
  (createComment ⟨[wBlog], []⟩ ⟨2, Role.user⟩ 1 "first" none 1 10).bind fun r1 =>
  (createComment r1.1 ⟨3, Role.user⟩ 1 "reply" (some 1) 2 11).bind fun r2 =>
  deleteComment r2.1 ⟨2, Role.user⟩ 1 12

/-- The comment created first in the scenario (as produced by
createComment at time 10). -/
def wComment1 : Comment :=
  { id := 1, content := "first", author := 2, blog := 1, parentComment := none,
    likes := [], isEdited := true, editedAt := some 10, isDeleted := false,
    deletedAt := none, createdAt := 10, updatedAt := 10 }

/-- The reply created second in the scenario (at time 11). -/
def wComment2 : Comment :=
  { id := 2, content := "reply", author := 3, blog := 1, parentComment := some 1,
    likes := [], isEdited := true, editedAt := some 11, isDeleted := false,
    deletedAt := none, createdAt := 11, updatedAt := 11 }

/-- The store holding the published blog with the two scenario comments. -/
def wStoreComments : Store := ⟨[wBlog], [wComment1, wComment2]⟩

/-- A concrete active account used by witnesses. -/
def wAccount : UserAccount :=
  { id := 1, username := "alice", email := "a@x.com", password := "digest",
    role := Role.user, isActive := true, lastLogin := 0 }

end BlogApp

namespace BlogApp

/-! ## Helper lemmas about the likes array operations -/

theorem toggleLikeList_nil (u : UserId) (t : Nat) :
    toggleLikeList [] u t = (true, [⟨u, t⟩]) := rfl

theorem toggleLikeList_cons (e : LikeEntry) (rest : List LikeEntry) (u : UserId) (t : Nat) :
    toggleLikeList (e :: rest) u t =
      if e.user == u then (false, rest)
      else ((toggleLikeList rest u t).1, e :: (toggleLikeList rest u t).2) := by
  unfold toggleLikeList
  rw [List.findIdx?_cons]
  by_cases h : (e.user == u) = true
  · simp [h]
  · rw [if_neg h, if_neg h, List.findIdx?_succ]
    cases hfi : List.findIdx? (fun l => l.user == u) rest with
    | none => simp [hfi]
    | some i => simp [hfi, List.eraseIdx]

theorem isLikedBy_nil (v : UserId) : isLikedBy [] v = false := rfl

theorem isLikedBy_cons (e : LikeEntry) (rest : List LikeEntry) (v : UserId) :
    isLikedBy (e :: rest) v = ((e.user == v) || isLikedBy rest v) := by
  simp [isLikedBy]

theorem isLikedBy_append (l1 l2 : List LikeEntry) (v : UserId) :
    isLikedBy (l1 ++ l2) v = (isLikedBy l1 v || isLikedBy l2 v) := by
  simp [isLikedBy, List.any_append]

theorem isLikedBy_iff_mem_users (l : List LikeEntry) (v : UserId) :
    isLikedBy l v = true ↔ v ∈ l.map LikeEntry.user := by
  simp [isLikedBy, List.any_eq_true, List.mem_map]

theorem toggle_fst (l : List LikeEntry) (u : UserId) (t : Nat) :
    (toggleLikeList l u t).1 = !(isLikedBy l u) := by
  induction l with
  | nil => rfl
  | cons e rest ih =>
    rw [toggleLikeList_cons, isLikedBy_cons]
    by_cases h : (e.user == u) = true
    · simp [h]
    · simp only [Bool.not_eq_true] at h
      simp [h, ih]

theorem toggle_of_not_liked (l : List LikeEntry) (u : UserId) (t : Nat)
    (h : isLikedBy l u = false) :
    toggleLikeList l u t = (true, l ++ [⟨u, t⟩]) := by
  induction l with
  | nil => rfl
  | cons e rest ih =>
    rw [isLikedBy_cons, Bool.or_eq_false_iff] at h
    rw [toggleLikeList_cons, if_neg (by simp [h.1]), ih h.2]
    rfl

theorem toggle_append_self (l : List LikeEntry) (u : UserId) (t1 t2 : Nat)
    (h : isLikedBy l u = false) :
    toggleLikeList (l ++ [⟨u, t1⟩]) u t2 = (false, l) := by
  induction l with
  | nil => simp [toggleLikeList_cons]
  | cons e rest ih =>
    rw [isLikedBy_cons, Bool.or_eq_false_iff] at h
    rw [List.cons_append, toggleLikeList_cons, if_neg (by simp [h.1]), ih h.2]

theorem isLikedBy_toggle_other (l : List LikeEntry) (u v : UserId) (t : Nat)
    (hv : v ≠ u) :
    isLikedBy (toggleLikeList l u t).2 v = isLikedBy l v := by
  induction l with
  | nil =>
    rw [toggleLikeList_nil, isLikedBy_cons, isLikedBy_nil]
    have : (u == v) = false := by
      simp only [beq_eq_false_iff_ne, ne_eq]
      exact fun hc => hv hc.symm
    simp [this]
  | cons e rest ih =>
    rw [toggleLikeList_cons]
    by_cases h : (e.user == u) = true
    · have heu : e.user = u := by simpa using h
      rw [if_pos h, isLikedBy_cons]
      have : (e.user == v) = false := by
        rw [heu]
        simp only [beq_eq_false_iff_ne, ne_eq]
        exact fun hc => hv hc.symm
      simp [this]
    · rw [if_neg h, isLikedBy_cons, isLikedBy_cons, ih]

theorem isLikedBy_toggle_self (l : List LikeEntry) (u : UserId) (t : Nat)
    (hnd : (l.map LikeEntry.user).Nodup) :
    isLikedBy (toggleLikeList l u t).2 u = !(isLikedBy l u) := by
  induction l with
  | nil =>
    rw [toggleLikeList_nil]
    simp [isLikedBy_cons, isLikedBy_nil]
  | cons e rest ih =>
    rw [List.map_cons, List.nodup_cons] at hnd
    rw [toggleLikeList_cons]
    by_cases h : (e.user == u) = true
    · have heu : e.user = u := by simpa using h
      rw [if_pos h, isLikedBy_cons]
      have hrest : isLikedBy rest u = false := by
        cases hr : isLikedBy rest u with
        | false => rfl
        | true =>
          exact absurd (heu ▸ (isLikedBy_iff_mem_users rest u).mp hr) hnd.1
      simp [h, hrest]
    · rw [if_neg h, isLikedBy_cons, isLikedBy_cons, ih hnd.2]
      simp only [Bool.not_eq_true] at h
      simp [h]

/-- Shape of the likes array around a liked user, assuming the at most
one entry per account invariant. -/
theorem toggle_of_liked (l : List LikeEntry) (u : UserId) (t : Nat)
    (hnd : (l.map LikeEntry.user).Nodup) (h : isLikedBy l u = true) :
    ∃ A B t0, l = A ++ ⟨u, t0⟩ :: B ∧ isLikedBy A u = false ∧
      isLikedBy B u = false ∧ toggleLikeList l u t = (false, A ++ B) := by
  induction l with
  | nil => simp [isLikedBy_nil] at h
  | cons e rest ih =>
    rw [List.map_cons, List.nodup_cons] at hnd
    by_cases he : (e.user == u) = true
    · have heu : e.user = u := by simpa using he
      refine ⟨[], rest, e.likedAt, ?_, rfl, ?_, ?_⟩
      · simp [← heu]
      · cases hr : isLikedBy rest u with
        | false => rfl
        | true =>
          exact absurd (heu ▸ (isLikedBy_iff_mem_users rest u).mp hr) hnd.1
      · rw [toggleLikeList_cons, if_pos he]
        rfl
    · rw [isLikedBy_cons, Bool.or_eq_true_iff] at h
      rcases h with h | h
      · exact absurd h he
      · obtain ⟨A, B, t0, hl, hA, hB, ht⟩ := ih hnd.2 h
        refine ⟨e :: A, B, t0, by rw [hl, List.cons_append], ?_, hB, ?_⟩
        · rw [isLikedBy_cons, hA]
          simp only [Bool.not_eq_true] at he
          simp [he]
        · rw [toggleLikeList_cons, if_neg he, ht]
          rfl

end BlogApp

namespace BlogApp

/-! ## Helper lemmas about store updates and the pre-save hooks -/

theorem find?_map_if {α : Type} (p : α → Bool) (nb : α) (l : List α)
    (hnb : p nb = true) (h : (l.find? p).isSome = true) :
    (l.map (fun x => if p x then nb else x)).find? p = some nb := by
  induction l with
  | nil => simp at h
  | cons e rest ih =>
    by_cases he : p e = true
    · rw [List.map_cons, if_pos he, List.find?_cons_of_pos _ hnb]
    · rw [List.find?_cons_of_neg _ (by simp [he])] at h
      rw [List.map_cons, if_neg he, List.find?_cons_of_neg _ (by simp [he])]
      exact ih h

theorem setBlog_findBlog (s : Store) (id : BlogId) (nb : Blog)
    (hid : (nb.id == id) = true) (h : (s.findBlog id).isSome = true) :
    (s.setBlog id nb).findBlog id = some nb := by
  have := find?_map_if (fun b => b.id == id) nb s.blogs hid
    (by simpa [Store.findBlog] using h)
  simpa [Store.setBlog, Store.findBlog] using this

theorem setComment_findComment (s : Store) (id : CommentId) (nc : Comment)
    (hid : (nc.id == id) = true)
    (h : ((s.comments.find? (fun c => c.id == id)).isSome) = true) :
    (s.setComment id nc).findComment id = some nc := by
  have := find?_map_if (fun c => c.id == id) nc s.comments hid h
  simpa [Store.setComment, Store.findComment] using this

theorem blogPreSave_likes (prev : Option Blog) (b : Blog) (now : Nat) :
    (blogPreSave prev b now).likes = b.likes := by
  simp only [blogPreSave]
  split <;> rfl

theorem blogPreSave_id (prev : Option Blog) (b : Blog) (now : Nat) :
    (blogPreSave prev b now).id = b.id := by
  simp only [blogPreSave]
  split <;> rfl

theorem blogPreSave_status (prev : Option Blog) (b : Blog) (now : Nat) :
    (blogPreSave prev b now).status = b.status := by
  simp only [blogPreSave]
  split <;> rfl

/-- The pre-save hook leaves publishedAt alone when the status path is
not modified relative to the stored document. -/
theorem blogPreSave_publishedAt_same_status (p b : Blog) (now : Nat)
    (h : p.status = b.status) :
    (blogPreSave (some p) b now).publishedAt = b.publishedAt := by
  simp [blogPreSave, h]

/-! ## C9: double like toggle -/

/-- C9: For every account and every post, applying toggleLike twice in
sequence by the same account (given the at most one like entry per
account invariant) restores the like count and the membership of every
account in the like set to their original values, the second call
reports the negation of the first, and when the first call reported
liked the whole document is restored exactly. -/
theorem toggleLike_twice_restores (b : Blog) (u : UserId) (t1 t2 : Nat)
    (hnd : (b.likes.map LikeEntry.user).Nodup) :
    (((b.toggleLike u t1).2.toggleLike u t2).2.likeCount = b.likeCount) ∧
    (∀ v, isLikedBy (((b.toggleLike u t1).2.toggleLike u t2).2).likes v =
      isLikedBy b.likes v) ∧
    (((b.toggleLike u t1).2.toggleLike u t2).1 = !((b.toggleLike u t1).1)) ∧
    ((b.toggleLike u t1).1 = true → ((b.toggleLike u t1).2.toggleLike u t2).2 = b) := by
  unfold Blog.toggleLike Blog.likeCount
  cases hl : isLikedBy b.likes u with
  | false =>
    rw [toggle_of_not_liked b.likes u t1 hl]
    simp only
    rw [toggle_append_self b.likes u t1 t2 hl]
    refine ⟨rfl, fun v => rfl, rfl, fun _ => rfl⟩
  | true =>
    obtain ⟨A, B, t0, hshape, hA, hB, htog⟩ := toggle_of_liked b.likes u t1 hnd hl
    rw [htog]
    simp only
    have hAB : isLikedBy (A ++ B) u = false := by
      rw [isLikedBy_append, hA, hB]
      rfl
    rw [toggle_of_not_liked (A ++ B) u t2 hAB]
    refine ⟨?_, ?_, rfl, ?_⟩
    · simp [hshape, List.length_append]
    · intro v
      by_cases hv : v = u
      · subst hv
        rw [hl, isLikedBy_append, isLikedBy_append, isLikedBy_cons]
        simp
      · rw [hshape, isLikedBy_append, isLikedBy_append, isLikedBy_append,
          isLikedBy_cons, isLikedBy_cons, isLikedBy_nil]
        have : (u == v) = false := by
          simp only [beq_eq_false_iff_ne, ne_eq]
          exact fun hc => hv hc.symm
        simp [this]
    · intro hflag
      exact absurd hflag (by simp)

/-- C9 witness at a concrete input. -/
theorem toggleLike_twice_restores_witness :
    ((wBlog.toggleLike 9 10).2.toggleLike 9 11).2.likeCount = wBlog.likeCount ∧
      ((wBlog.toggleLike 9 10).2.toggleLike 9 11).2 = wBlog := by
  have h := toggleLike_twice_restores wBlog 9 10 11 (by decide)
  exact ⟨h.1, h.2.2.2 (by decide)⟩

/-! ## C4: toggleLike policy -/

/-- C4: For every authenticated caller and existing post with a
duplicate-free like set, toggleLike fails with the 400 BadRequest when
the post is not publicly visible, and otherwise succeeds regardless of
ownership, flips exactly the membership of the caller in the like set,
and returns the post-toggle like count. -/
theorem toggleLikeBlog_policy (s : Store) (user : AuthUser) (id : BlogId)
    (now : Nat) (b : Blog) (hfind : s.findBlog id = some b)
    (hnd : (b.likes.map LikeEntry.user).Nodup) :
    (¬(b.status = BlogStatus.published ∧ b.isPublic = true) →
        toggleLikeBlog s user id now = Except.error ⟨"Cannot like this blog", 400⟩) ∧
    ((b.status = BlogStatus.published ∧ b.isPublic = true) →
      ∃ s2 b2,
        toggleLikeBlog s user id now =
          Except.ok (s2, !(isLikedBy b.likes user.id), b2.likes.length) ∧
        s2.findBlog id = some b2 ∧
        isLikedBy b2.likes user.id = (!(isLikedBy b.likes user.id)) ∧
        (∀ v, v ≠ user.id → isLikedBy b2.likes v = isLikedBy b.likes v) ∧
        b2.likes.length = (toggleLikeList b.likes user.id now).2.length) := by
  constructor
  · intro hvis
    have hcond : (!(b.status == BlogStatus.published) || !b.isPublic) = true := by
      by_cases hst : b.status = BlogStatus.published
      · have hp : b.isPublic = false := by
          cases hp : b.isPublic
          · rfl
          · exact absurd ⟨hst, hp⟩ hvis
        rw [hp]
        simp
      · have h1 : (b.status == BlogStatus.published) = false := by
          simp [beq_iff_eq, hst]
        rw [h1]
        rfl
    unfold toggleLikeBlog
    rw [hfind]
    simp [hcond]
  · rintro ⟨hst, hpub⟩
    have hcond : (!(b.status == BlogStatus.published) || !b.isPublic) = false := by
      have h1 : (b.status == BlogStatus.published) = true := by
        simp [beq_iff_eq, hst]
      rw [h1, hpub]
      rfl
    have hlikes : (blogPreSave (some b) (b.toggleLike user.id now).2 now).likes =
        (toggleLikeList b.likes user.id now).2 := by
      rw [blogPreSave_likes]
      rfl
    have hbid : (b.id == id) = true := by
      unfold Store.findBlog at hfind
      have h0 := List.find?_some hfind
      simpa using h0
    have hsid : ((blogPreSave (some b) (b.toggleLike user.id now).2 now).id == id) = true := by
      rw [blogPreSave_id]
      exact hbid
    have hflag : (b.toggleLike user.id now).1 = !(isLikedBy b.likes user.id) := by
      have h0 := toggle_fst b.likes user.id now
      simpa [Blog.toggleLike] using h0
    refine ⟨s.setBlog id (blogPreSave (some b) (b.toggleLike user.id now).2 now),
      blogPreSave (some b) (b.toggleLike user.id now).2 now, ?_, ?_, ?_, ?_, ?_⟩
    · unfold toggleLikeBlog
      rw [hfind]
      simp only [hcond, Bool.false_eq_true, if_false]
      rw [hflag]
    · exact setBlog_findBlog s id _ hsid (by rw [hfind]; rfl)
    · rw [hlikes]
      exact isLikedBy_toggle_self b.likes user.id now hnd
    · intro v hv
      rw [hlikes]
      exact isLikedBy_toggle_other b.likes user.id v now hv
    · rw [hlikes]

/-- C4 witness at concrete inputs: a published private post is rejected
with the 400 and a public one is accepted. -/
theorem toggleLikeBlog_policy_witness :
    (toggleLikeBlog ⟨[wPrivBlog], []⟩ ⟨7, Role.user⟩ 3 9 =
        Except.error ⟨"Cannot like this blog", 400⟩) ∧
    (∃ s2 b2,
      toggleLikeBlog ⟨[wBlog], []⟩ ⟨7, Role.user⟩ 1 9 =
          Except.ok (s2, !(isLikedBy wBlog.likes 7), b2.likes.length) ∧
      s2.findBlog 1 = some b2 ∧
      isLikedBy b2.likes 7 = (!(isLikedBy wBlog.likes 7)) ∧
      (∀ v, v ≠ 7 → isLikedBy b2.likes v = isLikedBy wBlog.likes v) ∧
      b2.likes.length = (toggleLikeList wBlog.likes 7 9).2.length) := by
  constructor
  · exact (toggleLikeBlog_policy ⟨[wPrivBlog], []⟩ ⟨7, Role.user⟩ 3 9 wPrivBlog
      rfl (by decide)).1 (by simp [wPrivBlog])
  · exact (toggleLikeBlog_policy ⟨[wBlog], []⟩ ⟨7, Role.user⟩ 1 9 wBlog
      rfl (by decide)).2 ⟨rfl, rfl⟩

end BlogApp

namespace BlogApp

/-! ## Sort primitive lemmas -/

theorem mem_insertSorted {α : Type} (le : α → α → Bool) (x a : α) (l : List α) :
    a ∈ insertSorted le x l ↔ a = x ∨ a ∈ l := by
  induction l with
  | nil => simp [insertSorted]
  | cons y ys ih =>
    simp only [insertSorted]
    split
    · simp [List.mem_cons]
    · simp [List.mem_cons, ih]
      tauto

theorem mem_sortBy {α : Type} (le : α → α → Bool) (a : α) (l : List α) :
    a ∈ sortBy le l ↔ a ∈ l := by
  induction l with
  | nil => simp [sortBy]
  | cons x xs ih => simp [sortBy, mem_insertSorted, ih]

theorem length_insertSorted {α : Type} (le : α → α → Bool) (x : α) (l : List α) :
    (insertSorted le x l).length = l.length + 1 := by
  induction l with
  | nil => rfl
  | cons y ys ih =>
    simp only [insertSorted]
    split
    · rfl
    · simp only [List.length_cons, ih]

theorem length_sortBy {α : Type} (le : α → α → Bool) (l : List α) :
    (sortBy le l).length = l.length := by
  induction l with
  | nil => rfl
  | cons x xs ih => simp [sortBy, length_insertSorted, ih]

/-- A Bool form of not being publicly visible. -/
theorem not_publicly_visible_bool (b : Blog)
    (hvis : ¬(b.status = BlogStatus.published ∧ b.isPublic = true)) :
    (!(b.status == BlogStatus.published) || !b.isPublic) = true := by
  by_cases hst : b.status = BlogStatus.published
  · have hp : b.isPublic = false := by
      cases hp : b.isPublic
      · rfl
      · exact absurd ⟨hst, hp⟩ hvis
    rw [hp]
    simp
  · have h1 : (b.status == BlogStatus.published) = false := by
      simp [beq_iff_eq, hst]
    rw [h1]
    rfl

/-! ## C6: visibility policy of getBlog -/

/-- C6: An anonymous caller can fetch a post iff it is published and
public; an existing post that is not publicly visible can be fetched
exactly by its owner or an admin. -/
theorem getBlog_visibility (s : Store) (id : BlogId) :
    ((∃ r, getBlog s none id = Except.ok r) ↔
      ∃ b ∈ s.blogs, b.id = id ∧ b.status = BlogStatus.published ∧ b.isPublic = true) ∧
    (∀ (u : AuthUser) (b : Blog), s.findBlog id = some b →
      ¬(b.status = BlogStatus.published ∧ b.isPublic = true) →
      ((∃ r, getBlog s (some u) id = Except.ok r) ↔
        (u.id = b.author ∨ u.role = Role.admin))) := by
  constructor
  · constructor
    · rintro ⟨r, hr⟩
      unfold getBlog getBlogQuery at hr
      cases hf : List.find?
          (fun b => b.id == id && (b.status == BlogStatus.published) && b.isPublic)
          s.blogs with
      | none =>
        rw [hf] at hr
        simp at hr
      | some blog =>
        rw [hf] at hr
        have hpred := List.find?_some hf
        have hmem := List.mem_of_find?_eq_some hf
        simp only [Bool.and_eq_true, beq_iff_eq] at hpred
        exact ⟨blog, hmem, hpred.1.1, hpred.1.2, hpred.2⟩
    · rintro ⟨b, hmem, hid, hst, hp⟩
      have hsome : (List.find?
          (fun b => b.id == id && (b.status == BlogStatus.published) && b.isPublic)
          s.blogs).isSome = true := by
        rw [List.find?_isSome]
        exact ⟨b, hmem, by simp [hid, hst, hp]⟩
      obtain ⟨blog, hf⟩ := Option.isSome_iff_exists.mp hsome
      have hpred := List.find?_some hf
      simp only [Bool.and_eq_true, beq_iff_eq] at hpred
      have hden : denyView none blog = false := by
        show ((!(blog.status == BlogStatus.published) || !blog.isPublic) && true) = false
        rw [hpred.1.2, hpred.2]
        simp
      unfold getBlog getBlogQuery
      rw [hf]
      simp only [hden, Bool.false_eq_true, if_false]
      exact ⟨_, rfl⟩
  · intro u b hfind hvis
    have hf : List.find? (fun x => x.id == id) s.blogs = some b := by
      unfold Store.findBlog at hfind
      exact hfind
    have hcond := not_publicly_visible_bool b hvis
    constructor
    · rintro ⟨r, hr⟩
      unfold getBlog getBlogQuery at hr
      rw [hf] at hr
      by_cases h1 : (u.id == b.author) = true
      · exact Or.inl (by simpa using h1)
      · by_cases h2 : (u.role == Role.admin) = true
        · exact Or.inr (by simpa using h2)
        · simp only [Bool.not_eq_true] at h1 h2
          have hden : denyView (some u) b = true := by
            show ((!(b.status == BlogStatus.published) || !b.isPublic) &&
              (!(u.id == b.author) && !(u.role == Role.admin))) = true
            rw [hcond, h1, h2]
            rfl
          simp only [hden] at hr
          simp at hr
    · intro hdisj
      have hda : (!(u.id == b.author) && !(u.role == Role.admin)) = false := by
        rcases hdisj with h1 | h1
        · have : (u.id == b.author) = true := by simp [beq_iff_eq, h1]
          rw [this]
          rfl
        · have : (u.role == Role.admin) = true := by simp [beq_iff_eq, h1]
          rw [this]
          simp
      have hden : denyView (some u) b = false := by
        show ((!(b.status == BlogStatus.published) || !b.isPublic) &&
          (!(u.id == b.author) && !(u.role == Role.admin))) = false
        rw [hda]
        simp
      unfold getBlog getBlogQuery
      rw [hf]
      simp only [hden, Bool.false_eq_true, if_false]
      exact ⟨_, rfl⟩

/-- C6 witness: the owner can fetch the published private blog, and an
anonymous caller cannot fetch it. -/
theorem getBlog_visibility_witness :
    (∃ r, getBlog ⟨[wPrivBlog], []⟩ (some ⟨7, Role.user⟩) 3 = Except.ok r) ∧
    ¬(∃ r, getBlog ⟨[wPrivBlog], []⟩ none 3 = Except.ok r) := by
  constructor
  · exact ((getBlog_visibility ⟨[wPrivBlog], []⟩ 3).2 ⟨7, Role.user⟩ wPrivBlog rfl
      (by decide)).mpr (Or.inl rfl)
  · intro hr
    have := (getBlog_visibility ⟨[wPrivBlog], []⟩ 3).1.mp hr
    rcases this with ⟨b, hmem, hid, hst, hp⟩
    simp [wPrivBlog] at hmem
    rw [hmem] at hp
    simp [wPrivBlog] at hp

/-! ## C7: delete cascade -/

/-- C7: A successful deleteBlog leaves no comment referencing the
deleted post, removes the post, and keeps every comment that references
a different post. -/
theorem deleteBlog_cascades (s : Store) (user : AuthUser) (id : BlogId)
    (s2 : Store) (h : deleteBlog s user id = Except.ok s2) :
    (∀ c ∈ s2.comments, c.blog ≠ id) ∧ (∀ b ∈ s2.blogs, b.id ≠ id) ∧
    (∀ c ∈ s.comments, c.blog ≠ id → c ∈ s2.comments) := by
  unfold deleteBlog at h
  cases hfind : s.findBlog id with
  | none =>
    rw [hfind] at h
    simp at h
  | some b =>
    rw [hfind] at h
    by_cases hauth : (!(b.author == user.id) && !(user.role == Role.admin)) = true
    · simp [hauth] at h
    · have hauth2 : (!(b.author == user.id) && !(user.role == Role.admin)) = false := by
        cases hx : (!(b.author == user.id) && !(user.role == Role.admin))
        · rfl
        · exact absurd hx hauth
      simp only [hauth2, Bool.false_eq_true, if_false] at h
      injection h with h2
      subst h2
      refine ⟨?_, ?_, ?_⟩
      · intro c hc
        have := (List.mem_filter.mp hc).2
        simpa using this
      · intro x hx
        have := (List.mem_filter.mp hx).2
        simpa using this
      · intro c hc hne
        exact List.mem_filter.mpr ⟨hc, by simpa using hne⟩

/-- C7 witness: deleting the blog removes its comments. -/
theorem deleteBlog_cascades_witness :
    (∀ c ∈ (Store.mk [] []).comments, c.blog ≠ 1) ∧
    (∀ b ∈ (Store.mk [] []).blogs, b.id ≠ 1) := by
  have h := deleteBlog_cascades
    (Store.mk [wBlog]
      [{ id := 1, content := "x", author := 2, blog := 1, parentComment := none,
         likes := [], isEdited := true, editedAt := some 1, isDeleted := false,
         deletedAt := none, createdAt := 1, updatedAt := 1 }])
    ⟨7, Role.user⟩ 1 ⟨[], []⟩ rfl
  exact ⟨h.1, h.2.1⟩

end BlogApp

namespace BlogApp

/-! ## C8: generic login failure and token contents -/

/-- C8: login failure is the identical generic 401 response both when no
active account matches the email and when the secret does not verify
against the stored digest, so the two causes are indistinguishable; on
success the lastLogin timestamp is refreshed to the current time and the
issued token carries exactly the account id, username and role. -/
theorem login_generic_failure_and_token (verify : String → String → Bool)
    (users : List UserAccount) (email password : String) (now : Nat) :
    ((users.find? (fun u => u.email == email && u.isActive) = none →
        login verify users email password now =
          Except.error ⟨"Invalid credentials", 401⟩) ∧
     (∀ u, users.find? (fun u => u.email == email && u.isActive) = some u →
        verify password u.password = false →
        login verify users email password now =
          Except.error ⟨"Invalid credentials", 401⟩)) ∧
    (∀ us u2 tok, login verify users email password now = Except.ok (us, u2, tok) →
      u2.lastLogin = now ∧ tok = ⟨u2.id, u2.username, u2.role⟩) := by
  refine ⟨⟨?_, ?_⟩, ?_⟩
  · intro hnone
    unfold login findByCredentials
    rw [hnone]
  · intro u hu hv
    unfold login findByCredentials
    rw [hu]
    simp only [hv, Bool.false_eq_true, if_false]
  · intro us u2 tok h
    unfold login findByCredentials at h
    cases hf : users.find? (fun u => u.email == email && u.isActive) with
    | none =>
      rw [hf] at h
      simp at h
    | some u =>
      rw [hf] at h
      by_cases hv : verify password u.password = true
      · simp only [hv, if_true] at h
        injection h with h2
        injection h2 with ha hbc
        injection hbc with hb hc
        subst hb
        subst hc
        exact ⟨rfl, rfl⟩
      · have hv2 : verify password u.password = false := by
          cases hx : verify password u.password
          · rfl
          · exact absurd hx hv
        simp [hv2] at h

/-- C8 witness: missing account and wrong secret yield the same error,
and a successful login carries the expected token claims. -/
theorem login_generic_failure_witness :
    (login (fun p d => p == d) [wAccount] "missing@x.com" "pw" 5 =
        Except.error ⟨"Invalid credentials", 401⟩) ∧
    (login (fun p d => p == d) [wAccount] "a@x.com" "wrong" 5 =
        Except.error ⟨"Invalid credentials", 401⟩) ∧
    (∀ us u2 tok, login (fun p d => p == d) [wAccount] "a@x.com" "digest" 5 =
        Except.ok (us, u2, tok) →
      u2.lastLogin = 5 ∧ tok = ⟨u2.id, u2.username, u2.role⟩) := by
  refine ⟨?_, ?_, ?_⟩
  · exact (login_generic_failure_and_token (fun p d => p == d) [wAccount]
      "missing@x.com" "pw" 5).1.1 (by decide)
  · exact (login_generic_failure_and_token (fun p d => p == d) [wAccount]
      "a@x.com" "wrong" 5).1.2 wAccount (by decide) (by decide)
  · exact (login_generic_failure_and_token (fun p d => p == d) [wAccount]
      "a@x.com" "digest" 5).2

/-! ## C10: creation marks comments edited -/

/-- C10: every successfully created comment is immediately marked as
edited with the edited timestamp equal to the creation time, because the
pre-save hook treats every path of a new document as modified. -/
theorem createComment_marks_edited (s : Store) (user : AuthUser) (blogId : BlogId)
    (content : String) (parent : Option CommentId) (newId : CommentId) (now : Nat)
    (s2 : Store) (c : Comment)
    (h : createComment s user blogId content parent newId now = Except.ok (s2, c)) :
    c.isEdited = true ∧ c.editedAt = some now ∧ c.createdAt = now ∧
      c.content = content := by
  unfold createComment at h
  cases hfind : s.findBlog blogId with
  | none =>
    rw [hfind] at h
    simp at h
  | some blog =>
    rw [hfind] at h
    by_cases hvis : (!(blog.status == BlogStatus.published) || !blog.isPublic) = true
    · simp [hvis] at h
    · have hvis2 : (!(blog.status == BlogStatus.published) || !blog.isPublic) = false := by
        cases hx : (!(blog.status == BlogStatus.published) || !blog.isPublic)
        · rfl
        · exact absurd hx hvis
      simp only [hvis2, Bool.false_eq_true, if_false] at h
      cases parent with
      | none =>
        simp only [Bool.not_true, Bool.false_eq_true, if_false] at h
        injection h with h2
        injection h2 with ha hb
        subst hb
        exact ⟨rfl, rfl, rfl, rfl⟩
      | some pid =>
        by_cases hp : (List.find?
            (fun x : Comment => x.id == pid && x.blog == blogId && !x.isDeleted)
            s.comments).isSome = true
        · simp only [hp, Bool.not_true, Bool.false_eq_true, if_false] at h
          injection h with h2
          injection h2 with ha hb
          subst hb
          exact ⟨rfl, rfl, rfl, rfl⟩
        · have hp2 : (List.find?
              (fun x : Comment => x.id == pid && x.blog == blogId && !x.isDeleted)
              s.comments).isSome = false := by
            cases hx : (List.find?
                (fun x : Comment => x.id == pid && x.blog == blogId && !x.isDeleted)
                s.comments).isSome
            · rfl
            · exact absurd hx hp
          simp [hp2] at h

/-- C10 witness: creating a comment on the published blog yields a
comment already marked edited at creation time. -/
theorem createComment_marks_edited_witness :
    ∃ s2 c, createComment ⟨[wBlog], []⟩ ⟨2, Role.user⟩ 1 "hello" none 4 10 =
        Except.ok (s2, c) ∧
      c.isEdited = true ∧ c.editedAt = some 10 ∧ c.createdAt = 10 ∧
        c.content = "hello" := by
  refine ⟨_, _, rfl, ?_⟩
  exact createComment_marks_edited ⟨[wBlog], []⟩ ⟨2, Role.user⟩ 1 "hello" none 4 10 _ _ rfl

end BlogApp

namespace BlogApp

/-! ## C1: the publish timestamp is never set by the update endpoint -/

/-- C1: updating a draft blog to published through the updateBlog
controller leaves publishedAt unset, because findByIdAndUpdate bypasses
the pre-save hook; the hook itself, had it run against the stored
version, would have stamped the timestamp.  The update endpoint is the
only state-transition path, so the publish-once invariant claimed by the
spec does not hold in the code. -/
theorem publishedAt_missed_on_update_bug :
    (∃ s2 b2, updateBlog ⟨[draftBlog], []⟩ ⟨7, Role.user⟩ 1
        { status := some BlogStatus.published } 5 = Except.ok (s2, b2) ∧
      b2.status = BlogStatus.published ∧ b2.publishedAt = none) ∧
    (blogPreSave (some draftBlog) { draftBlog with status := BlogStatus.published } 5).publishedAt
      = some 5 := by
  exact ⟨⟨_, _, rfl, rfl, rfl⟩, rfl⟩

/-! ## C5: the edited flag is never set by the update endpoint -/

/-- C5: updating a comment through the updateComment controller replaces
the body but does not touch the edited flag or timestamp, because
findByIdAndUpdate bypasses the pre-save hook; the observed edited state
after an update is the one wrongly stamped at creation (editedAt stays
at the creation time, not the update time), while the hook run against
the stored version would have stamped the update time. -/
theorem editedAt_missed_on_update_bug :
    ∃ s1 c1, createComment ⟨[wBlog], []⟩ ⟨2, Role.user⟩ 1 "original" none 1 10 =
        Except.ok (s1, c1) ∧
      ∃ s2 c2, updateComment s1 ⟨2, Role.user⟩ 1 "changed" 20 = Except.ok (s2, c2) ∧
        c2.content = "changed" ∧ c2.editedAt = some 10 ∧ c2.editedAt ≠ some 20 ∧
        (commentPreSave (some c1) { c1 with content := "changed" } 20).editedAt = some 20 := by
  refine ⟨_, _, rfl, _, _, rfl, rfl, rfl, by decide, ?_⟩
  show (commentPreSave (some (commentPreSave none
    { id := 1, content := "original", author := 2, blog := 1, parentComment := none,
      likes := [], isEdited := false, editedAt := none, isDeleted := false,
      deletedAt := none, createdAt := 10, updatedAt := 10 } 10))
    { commentPreSave none
        { id := 1, content := "original", author := 2, blog := 1, parentComment := none,
          likes := [], isEdited := false, editedAt := none, isDeleted := false,
          deletedAt := none, createdAt := 10, updatedAt := 10 } 10 with
        content := "changed" } 20).editedAt = some 20
  decide

end BlogApp

namespace BlogApp

/-- The Bool increment condition of getBlog expressed as a proposition:
status published and the caller, when present, is not the author. -/
theorem shouldInc_iff (user : Caller) (b0 : Blog) :
    (((b0.status == BlogStatus.published) &&
      (match user with | none => true | some u => !(u.id == b0.author))) = true) ↔
    (b0.status = BlogStatus.published ∧ ∀ u, user = some u → u.id ≠ b0.author) := by
  cases user with
  | none => simp [beq_iff_eq]
  | some u => simp [beq_iff_eq]

/-! ## C3: the view counter condition -/

/-- C3 counterexample: an admin who is not the owner fetching a
published but private post gets the view counter incremented although
the post is not publicly visible, contradicting the increment iff
publicly visible and not owner reading. -/
theorem view_increment_private_cex :
    getBlog ⟨[wPrivBlog], []⟩ (some ⟨9, Role.admin⟩) 3 =
      Except.ok (⟨[{ wPrivBlog with views := 1 }], []⟩,
        { wPrivBlog with views := 1 }, false) ∧
    ¬(wPrivBlog.status = BlogStatus.published ∧ wPrivBlog.isPublic = true) ∧
    (9 : UserId) ≠ wPrivBlog.author ∧ wPrivBlog.views = 0 := by
  exact ⟨rfl, by decide, by decide, rfl⟩

/-- C3 amended: on every successful getBlog the view counter is
incremented by exactly one iff the found post has status published and
the caller is not its author; the public flag is not consulted, and in
every other successful case the response and the store are unchanged. -/
theorem getBlog_view_increment (s : Store) (user : Caller) (id : BlogId)
    (s2 : Store) (b : Blog) (lk : Bool)
    (h : getBlog s user id = Except.ok (s2, b, lk)) :
    ∃ b0, getBlogQuery s user id = some b0 ∧
      ((b0.status = BlogStatus.published ∧ ∀ u, user = some u → u.id ≠ b0.author) →
        b = { b0 with views := b0.views + 1 } ∧
        s2 = s.setBlog id { b0 with views := b0.views + 1 }) ∧
      (¬(b0.status = BlogStatus.published ∧ ∀ u, user = some u → u.id ≠ b0.author) →
        b = b0 ∧ s2 = s) := by
  unfold getBlog at h
  cases hq : getBlogQuery s user id with
  | none =>
    rw [hq] at h
    simp at h
  | some b0 =>
    rw [hq] at h
    cases user with
    | none =>
      by_cases hden : denyView none b0 = true
      · simp [hden] at h
      · have hden2 : denyView none b0 = false := by
          cases hx : denyView none b0
          · rfl
          · exact absurd hx hden
        simp only [hden2, Bool.false_eq_true, if_false, Bool.and_true] at h
        by_cases hb0 : (b0.status == BlogStatus.published) = true
        · simp only [hb0, if_true] at h
          injection h with h2
          injection h2 with ha hbc
          injection hbc with hb hc
          refine ⟨b0, rfl, fun _ => ⟨hb.symm, ha.symm⟩, fun hn => ?_⟩
          exact absurd ⟨by simpa using hb0, fun u hu => nomatch hu⟩ hn
        · have hb0f : (b0.status == BlogStatus.published) = false := by
            cases hx : (b0.status == BlogStatus.published)
            · rfl
            · exact absurd hx hb0
          simp only [hb0f, Bool.false_eq_true, if_false] at h
          injection h with h2
          injection h2 with ha hbc
          injection hbc with hb hc
          refine ⟨b0, rfl, fun hp => ?_, fun _ => ⟨hb.symm, ha.symm⟩⟩
          have hx : (b0.status == BlogStatus.published) = true := by
            simp [beq_iff_eq, hp.1]
          rw [hb0f] at hx
          exact absurd hx (by simp)
    | some u =>
      by_cases hden : denyView (some u) b0 = true
      · simp [hden] at h
      · have hden2 : denyView (some u) b0 = false := by
          cases hx : denyView (some u) b0
          · rfl
          · exact absurd hx hden
        simp only [hden2, Bool.false_eq_true, if_false] at h
        by_cases hSI : (b0.status == BlogStatus.published && !(u.id == b0.author)) = true
        · simp only [hSI, if_true] at h
          injection h with h2
          injection h2 with ha hbc
          injection hbc with hb hc
          refine ⟨b0, rfl, fun _ => ⟨hb.symm, ha.symm⟩, fun hn => ?_⟩
          have h1 := hSI
          simp only [Bool.and_eq_true, beq_iff_eq, Bool.not_eq_true',
            beq_eq_false_iff_ne, ne_eq] at h1
          refine absurd ⟨h1.1, fun v hv => ?_⟩ hn
          cases hv
          exact h1.2
        · have hSI2 : (b0.status == BlogStatus.published && !(u.id == b0.author)) = false := by
            cases hx : (b0.status == BlogStatus.published && !(u.id == b0.author))
            · rfl
            · exact absurd hx hSI
          simp only [hSI2, Bool.false_eq_true, if_false] at h
          injection h with h2
          injection h2 with ha hbc
          injection hbc with hb hc
          refine ⟨b0, rfl, fun hp => ?_, fun _ => ⟨hb.symm, ha.symm⟩⟩
          have h1 : (b0.status == BlogStatus.published && !(u.id == b0.author)) = true := by
            have hne := hp.2 u rfl
            simp [beq_iff_eq, hp.1, hne]
          rw [hSI2] at h1
          exact absurd h1 (by simp)

/-- C3 amended witness: the admin fetch of the published private post
increments the counter per the amended condition. -/
theorem getBlog_view_increment_witness :
    ∃ b0, getBlogQuery ⟨[wPrivBlog], []⟩ (some ⟨9, Role.admin⟩) 3 = some b0 ∧
      ((b0.status = BlogStatus.published ∧
          ∀ u, (some ⟨9, Role.admin⟩ : Caller) = some u → u.id ≠ b0.author) →
        { wPrivBlog with views := 1 } = { b0 with views := b0.views + 1 } ∧
        (⟨[{ wPrivBlog with views := 1 }], []⟩ : Store) =
          (⟨[wPrivBlog], []⟩ : Store).setBlog 3 { b0 with views := b0.views + 1 }) ∧
      (¬(b0.status = BlogStatus.published ∧
          ∀ u, (some ⟨9, Role.admin⟩ : Caller) = some u → u.id ≠ b0.author) →
        { wPrivBlog with views := 1 } = b0 ∧
        (⟨[{ wPrivBlog with views := 1 }], []⟩ : Store) = ⟨[wPrivBlog], []⟩) :=
  getBlog_view_increment ⟨[wPrivBlog], []⟩ (some ⟨9, Role.admin⟩) 3
    ⟨[{ wPrivBlog with views := 1 }], []⟩ { wPrivBlog with views := 1 } false rfl

end BlogApp

namespace BlogApp

/-! ## Helper lemmas about soft deletion and comment listings -/

theorem softDelete_content (c : Comment) (now : Nat) :
    (Comment.softDelete c now).content = "[Comment deleted]" := by
  simp only [Comment.softDelete, commentPreSave]
  split <;> rfl

theorem softDelete_isDeleted (c : Comment) (now : Nat) :
    (Comment.softDelete c now).isDeleted = true := by
  simp only [Comment.softDelete, commentPreSave]
  split <;> rfl

theorem softDelete_deletedAt (c : Comment) (now : Nat) :
    (Comment.softDelete c now).deletedAt = some now := by
  simp only [Comment.softDelete, commentPreSave]
  split <;> rfl

theorem softDelete_id (c : Comment) (now : Nat) :
    (Comment.softDelete c now).id = c.id := by
  simp only [Comment.softDelete, commentPreSave]
  split <;> rfl

/-- After persisting a deleted document over the id, the not-deleted
lookup finds nothing. -/
theorem findLiveComment_after_tombstone (s : Store) (cid : CommentId)
    (d : Comment) (hd : d.isDeleted = true) :
    (s.setComment cid d).findLiveComment cid = none := by
  unfold Store.setComment Store.findLiveComment
  rw [List.find?_eq_none]
  intro a ha
  rw [List.mem_map] at ha
  obtain ⟨y, hy, hmap⟩ := ha
  by_cases hyid : (y.id == cid) = true
  · rw [if_pos hyid] at hmap
    subst hmap
    simp [hd]
  · rw [if_neg hyid] at hmap
    subst hmap
    simp only [Bool.not_eq_true] at hyid
    simp [hyid]

/-- Every comment returned by getComments is a non deleted comment of
the requested blog present in the store. -/
theorem getComments_ok_mem (s : Store) (u2 : Caller) (bid : BlogId)
    (page lim : Nat) (l : List Comment) (x : Comment)
    (h : getComments s u2 bid page lim = Except.ok l) (hx : x ∈ l) :
    x ∈ s.comments ∧ (x.blog == bid) = true ∧ x.isDeleted = false := by
  unfold getComments at h
  cases hf : s.findBlog bid with
  | none =>
    rw [hf] at h
    simp at h
  | some blog =>
    rw [hf] at h
    by_cases hden : denyView u2 blog = true
    · simp [hden] at h
    · have hden2 : denyView u2 blog = false := by
        cases hx2 : denyView u2 blog
        · rfl
        · exact absurd hx2 hden
      simp only [hden2, Bool.false_eq_true, if_false] at h
      injection h with h2
      subst h2
      have hx2 := List.mem_of_mem_drop (List.mem_of_mem_take hx)
      rw [mem_sortBy] at hx2
      have hm := List.mem_filter.mp hx2
      refine ⟨hm.1, ?_, ?_⟩
      · have hh := hm.2
        simp only [Bool.and_eq_true] at hh
        exact hh.1
      · have hh := hm.2
        simp only [Bool.and_eq_true, Bool.not_eq_true'] at hh
        exact hh.2

/-- With page one and a page size at least the collection size, every
non deleted comment of the blog is returned by getComments. -/
theorem getComments_ok_full (s : Store) (u2 : Caller) (bid : BlogId)
    (l : List Comment) (x : Comment)
    (h : getComments s u2 bid 1 s.comments.length = Except.ok l)
    (hxmem : x ∈ s.comments) (hblog : (x.blog == bid) = true)
    (hdel : x.isDeleted = false) : x ∈ l := by
  unfold getComments at h
  cases hf : s.findBlog bid with
  | none =>
    rw [hf] at h
    simp at h
  | some blog =>
    rw [hf] at h
    by_cases hden : denyView u2 blog = true
    · simp [hden] at h
    · have hden2 : denyView u2 blog = false := by
        cases hx2 : denyView u2 blog
        · rfl
        · exact absurd hx2 hden
      simp only [hden2, Bool.false_eq_true, if_false] at h
      injection h with h2
      subst h2
      have hk : (1 - 1) * s.comments.length = 0 := by simp
      have hle : (sortBy (fun a b => decide (b.createdAt ≤ a.createdAt))
          (s.comments.filter (fun c => c.blog == bid && !c.isDeleted))).length ≤
          s.comments.length := by
        rw [length_sortBy]
        exact List.length_filter_le _ _
      rw [hk, List.drop_zero, List.take_of_length_le hle, mem_sortBy]
      refine List.mem_filter.mpr ⟨hxmem, ?_⟩
      rw [hblog, hdel]
      rfl

/-- The repliesOf endpoint fails with the 404 when the not-deleted
lookup of the parent comment finds nothing. -/
theorem getCommentReplies_404 (s : Store) (u2 : Caller) (cid : CommentId)
    (page lim : Nat) (h : s.findLiveComment cid = none) :
    getCommentReplies s u2 cid page lim = Except.error ⟨"Comment not found", 404⟩ := by
  unfold getCommentReplies
  rw [h]

end BlogApp

namespace BlogApp

/-! ## C2: soft delete semantics -/

/-- C2 counterexample: in the spec scenario (top-level comment 1 on the
published post with live reply 2, then comment 1 soft-deleted), calling
repliesOf on the soft-deleted comment does not return the reply: it
fails with the 404, because the endpoint loads the parent with the
not-deleted filter. -/
theorem repliesOf_softdeleted_cex :
    ∃ s3, softDeleteScenario = Except.ok s3 ∧
      (∃ r, s3.findComment 2 = some r ∧ r.isDeleted = false ∧
        r.parentComment = some 1) ∧
      getCommentReplies s3 none 1 1 10 = Except.error ⟨"Comment not found", 404⟩ := by
  exact ⟨_, rfl, ⟨_, rfl, rfl, rfl⟩, rfl⟩

/-- C2 amended: a successful deleteComment tombstones the row in place
(body replaced by the tombstone text with the deleted flag and timestamp
set), excludes it from every listForPost page, and leaves every other
comment row, its non deleted replies included, in place and still
listed on its blog; but a subsequent repliesOf call on the soft-deleted
comment itself fails with the 404, because comment endpoints load their
comment with the not-deleted filter. -/
theorem softDelete_effects (s : Store) (user : AuthUser) (cid : CommentId)
    (now : Nat) (s2 : Store) (h : deleteComment s user cid now = Except.ok s2) :
    ∃ c, s.findLiveComment cid = some c ∧
      s2 = s.setComment cid (Comment.softDelete c now) ∧
      (∃ d, s2.findComment cid = some d ∧ d.content = "[Comment deleted]" ∧
        d.isDeleted = true ∧ d.deletedAt = some now) ∧
      (∀ u2 bid page lim l x, getComments s2 u2 bid page lim = Except.ok l →
        x ∈ l → x.id ≠ cid) ∧
      (∀ x ∈ s.comments, x.id ≠ cid → x ∈ s2.comments) ∧
      (∀ x ∈ s.comments, x.id ≠ cid → x.isDeleted = false →
        ∀ u2 l, getComments s2 u2 x.blog 1 s2.comments.length = Except.ok l →
          x ∈ l) ∧
      (∀ u2 page lim, getCommentReplies s2 u2 cid page lim =
        Except.error ⟨"Comment not found", 404⟩) := by
  unfold deleteComment at h
  cases hfc : s.findLiveComment cid with
  | none =>
    rw [hfc] at h
    simp at h
  | some c =>
    rw [hfc] at h
    by_cases hauth : (!(c.author == user.id) && !(user.role == Role.admin)) = true
    · simp [hauth] at h
    · have hauth2 : (!(c.author == user.id) && !(user.role == Role.admin)) = false := by
        cases hx : (!(c.author == user.id) && !(user.role == Role.admin))
        · rfl
        · exact absurd hx hauth
      simp only [hauth2, Bool.false_eq_true, if_false] at h
      injection h with h2
      subst h2
      have hcpred : (c.id == cid && !c.isDeleted) = true := by
        unfold Store.findLiveComment at hfc
        have h0 := List.find?_some hfc
        simpa using h0
      have hcmem : c ∈ s.comments := by
        unfold Store.findLiveComment at hfc
        exact List.mem_of_find?_eq_some hfc
      have hcid : (c.id == cid) = true := by
        simp only [Bool.and_eq_true] at hcpred
        exact hcpred.1
      have hdid : ((Comment.softDelete c now).id == cid) = true := by
        rw [softDelete_id]
        exact hcid
      refine ⟨c, rfl, rfl, ?_, ?_, ?_, ?_, ?_⟩
      · refine ⟨Comment.softDelete c now, ?_, softDelete_content c now,
          softDelete_isDeleted c now, softDelete_deletedAt c now⟩
        apply setComment_findComment
        · exact hdid
        · rw [List.find?_isSome]
          exact ⟨c, hcmem, hcid⟩
      · intro u2 bid page lim l x hgc hx
        obtain ⟨hxm, hxb, hxd⟩ := getComments_ok_mem _ u2 bid page lim l x hgc hx
        simp only [Store.setComment] at hxm
        rw [List.mem_map] at hxm
        obtain ⟨y, hy, hmap⟩ := hxm
        by_cases hyid : (y.id == cid) = true
        · rw [if_pos hyid] at hmap
          subst hmap
          rw [softDelete_isDeleted c now] at hxd
          simp at hxd
        · rw [if_neg hyid] at hmap
          subst hmap
          simp only [Bool.not_eq_true] at hyid
          simpa using hyid
      · intro x hxm hxne
        simp only [Store.setComment]
        rw [List.mem_map]
        refine ⟨x, hxm, ?_⟩
        have hne : ¬((x.id == cid) = true) := by
          simp only [beq_iff_eq]
          exact hxne
        rw [if_neg hne]
      · intro x hxm hxne hxdel u2 l hgc
        have hxmem2 : x ∈ (Store.setComment s cid (Comment.softDelete c now)).comments := by
          simp only [Store.setComment]
          rw [List.mem_map]
          refine ⟨x, hxm, ?_⟩
          have hne : ¬((x.id == cid) = true) := by
            simp only [beq_iff_eq]
            exact hxne
          rw [if_neg hne]
        exact getComments_ok_full _ u2 x.blog l x hgc hxmem2 (by simp) hxdel
      · intro u2 page lim
        exact getCommentReplies_404 _ u2 cid page lim
          (findLiveComment_after_tombstone s cid _ (softDelete_isDeleted c now))

/-- C2 amended witness: the scenario store with the tombstoned first
comment satisfies every clause of the amended soft delete description. -/
theorem softDelete_effects_witness :
    ∃ c, wStoreComments.findLiveComment 1 = some c ∧
      Store.setComment wStoreComments 1 (Comment.softDelete wComment1 12) =
        wStoreComments.setComment 1 (Comment.softDelete c 12) ∧
      (∃ d, (Store.setComment wStoreComments 1
          (Comment.softDelete wComment1 12)).findComment 1 = some d ∧
        d.content = "[Comment deleted]" ∧ d.isDeleted = true ∧
        d.deletedAt = some 12) ∧
      (∀ u2 bid page lim l x, getComments (Store.setComment wStoreComments 1
          (Comment.softDelete wComment1 12)) u2 bid page lim = Except.ok l →
        x ∈ l → x.id ≠ 1) ∧
      (∀ x ∈ wStoreComments.comments, x.id ≠ 1 →
        x ∈ (Store.setComment wStoreComments 1
          (Comment.softDelete wComment1 12)).comments) ∧
      (∀ x ∈ wStoreComments.comments, x.id ≠ 1 → x.isDeleted = false →
        ∀ u2 l, getComments (Store.setComment wStoreComments 1
            (Comment.softDelete wComment1 12)) u2 x.blog 1
            (Store.setComment wStoreComments 1
              (Comment.softDelete wComment1 12)).comments.length = Except.ok l →
          x ∈ l) ∧
      (∀ u2 page lim, getCommentReplies (Store.setComment wStoreComments 1
          (Comment.softDelete wComment1 12)) u2 1 page lim =
        Except.error ⟨"Comment not found", 404⟩) :=
  softDelete_effects wStoreComments ⟨2, Role.user⟩ 1 12
    (Store.setComment wStoreComments 1 (Comment.softDelete wComment1 12)) rfl

end BlogApp
